import Mathlib

/-!
Verification development for the task-manager core (task_manager.py and its
collaborators).  The Python code is shallowly embedded:

* Real-number (Python float) arithmetic is modelled exactly in ℚ; every value
  the development evaluates is far from any rounding boundary, so the ℚ results
  coincide with the float results.  Python round (banker's rounding) is
  modelled by round_half_even below.
* A JSON/dict row field that is absent and one that is present with value None
  both read back as None through dict.get(key); both are modelled as none.
  A Python None stored into a task's string-typed attribute (possible only in
  the buggy sync overwrite path) is modelled as the empty string.
* datetime.utcnow() is modelled by passing the current timestamp string (now)
  and the current date (now_date) as explicit arguments.
* The DatabaseManager is modelled by its observable behaviour: a supabase flag,
  the snapshot returned by get_all_tasks, and the stream of successive
  add_task_to_db results (each collapsed to the row the caller extracts, or
  none when no row comes back).  Remote mirror calls that the manager ignores
  (update_task_status, delete_task) have no local effect and are omitted.
  The db calls are modelled as total, so the outer try/except in
  sync_with_remote (which returns a partial summary on an exception) is never
  triggered in the model.
* due_date strings are date-only ISO strings (YYYY-MM-DD), as the data model
  prescribes; datetime.fromisoformat on such strings is parseDate below.
* tasks.json is modelled by the jsonFile component, rewritten by save_json.
-/

namespace TaskApp

/-! ## Calendar dates (datetime.date) -/

def isLeapYear (y : ℕ) : Bool :=
  (y % 4 == 0 && y % 100 != 0) || (y % 400 == 0)

def daysInMonth (y m : ℕ) : ℕ :=
  if m = 2 then (if isLeapYear y then 29 else 28)
  else if m = 4 ∨ m = 6 ∨ m = 9 ∨ m = 11 then 30
  else 31

/-- Days before month m (1-based) in a non-leap year. -/
def daysBeforeMonth (m : ℕ) : ℕ :=
  [0, 0, 31, 59, 90, 120, 151, 181, 212, 243, 273, 304, 334].getD m 0

/-- Number of leap years in 1..n of the proleptic Gregorian calendar. -/
def leapsBefore (n : ℕ) : ℕ := n / 4 - n / 100 + n / 400

/-- Proleptic-Gregorian ordinal of a date, as Python date.toordinal:
0001-01-01 has ordinal 1. -/
def toOrdinal (y m d : ℕ) : ℕ :=
  365 * (y - 1) + leapsBefore (y - 1) + daysBeforeMonth m
    + (if 2 < m ∧ isLeapYear y then 1 else 0) + d

/-- Inverse of toOrdinal (Python date.fromordinal), by the standard
civil-from-days algorithm. -/
def fromOrdinal (n : ℕ) : ℕ × ℕ × ℕ :=
  let z := n + 305
  let era := z / 146097
  let doe := z % 146097
  let yoe := (doe - doe / 1460 + doe / 36524 - doe / 146096) / 365
  let y0 := yoe + era * 400
  let doy := doe - (365 * yoe + yoe / 4 - yoe / 100)
  let mp := (5 * doy + 2) / 153
  let d := doy - (153 * mp + 2) / 5 + 1
  let m := if mp < 10 then mp + 3 else mp - 9
  (if m ≤ 2 then y0 + 1 else y0, m, d)

/-- Ordinal of Python date.max = 9999-12-31; fromordinal raises outside
1..date_max_ordinal. -/
def date_max_ordinal : ℕ := 3652059

def digitChar (n : ℕ) : Char := Char.ofNat (48 + n % 10)

def pad4 (n : ℕ) : String :=
  String.mk [digitChar (n / 1000), digitChar (n / 100), digitChar (n / 10), digitChar n]

def pad2 (n : ℕ) : String := String.mk [digitChar (n / 10), digitChar n]

/-- date.isoformat: YYYY-MM-DD. -/
def isoOfDate (c : ℕ × ℕ × ℕ) : String :=
  pad4 c.1 ++ "-" ++ pad2 c.2.1 ++ "-" ++ pad2 c.2.2

def isoOfOrdinal (n : ℕ) : String := isoOfDate (fromOrdinal n)

def digitVal (c : Char) : Option ℕ :=
  if 48 ≤ c.toNat ∧ c.toNat ≤ 57 then some (c.toNat - 48) else none

/-- Parsing a date-only ISO string, as datetime.fromisoformat(s).date() on the
YYYY-MM-DD strings this application stores (none on failure, which the code
turns into the no-actionable-due-date behaviour). -/
def parseDate (s : String) : Option (ℕ × ℕ × ℕ) :=
  match s.toList with
  | [y1, y2, y3, y4, s1, m1, m2, s2, d1, d2] =>
    if s1 = '-' ∧ s2 = '-' then
      match digitVal y1, digitVal y2, digitVal y3, digitVal y4,
            digitVal m1, digitVal m2, digitVal d1, digitVal d2 with
      | some a, some b, some c, some d, some e, some f, some g, some h =>
        let y := 1000 * a + 100 * b + 10 * c + d
        let m := 10 * e + f
        let dd := 10 * g + h
        if 1 ≤ y ∧ 1 ≤ m ∧ m ≤ 12 ∧ 1 ≤ dd ∧ dd ≤ daysInMonth y m then
          some (y, m, dd)
        else none
      | _, _, _, _, _, _, _, _ => none
    else none
  | _ => none

/-! ## Python string helpers -/

/-- Truthiness of an optional string: None and the empty string are falsy. -/
def strTruthy : Option String → Bool
  | none => false
  | some s => !s.isEmpty

/-- Python x or y on optional strings. -/
def pyOr (a b : Option String) : Option String :=
  if strTruthy a then a else b

/-- Python str.strip (whitespace from both ends). -/
def pyStrip (s : String) : String :=
  String.mk ((s.toList.dropWhile Char.isWhitespace).reverse.dropWhile
    Char.isWhitespace).reverse

def pyTitleGo : Bool → List Char → List Char
  | _, [] => []
  | prevAlpha, c :: cs =>
      (if c.isAlpha then (if prevAlpha then c.toLower else c.toUpper) else c)
        :: pyTitleGo c.isAlpha cs

/-- Python str.title: start of each alphabetic run is uppercased, the rest
lowercased. -/
def pyTitle (s : String) : String := String.mk (pyTitleGo false s.toList)

def pyLower (s : String) : String := s.toLower

/-! ## Priority normalization -/

def PRIORITY_LEVELS : List String := ["Low", "Normal", "High"]

def _normalize_priority (p : Option String) : String :=
  if !strTruthy p then "Normal"
  else
    let q := pyTitle (pyStrip (p.getD ""))
    if PRIORITY_LEVELS.contains q then q
    else if pyLower q = "low" then "Low"
    else if pyLower q = "normal" then "Normal"
    else if pyLower q = "high" then "High"
    else "Normal"

/-- PRIORITY_WEIGHT.get(p, 2); the weights take part in float arithmetic, hence
valued in ℚ here. -/
def PRIORITY_WEIGHT (p : String) : ℚ :=
  if p = "Low" then 1 else if p = "Normal" then 2 else if p = "High" then 3 else 2

/-! ## Task entity and rows -/

/-- The PriorityTask dataclass.  The notes field is not declared on the
dataclass; the GUI attaches it dynamically with setattr, so it is carried here
as an extra optional component (none = attribute absent) that the generated
dataclass equality ignores. -/
structure PriorityTask where
  task_id : Option ℤ
  title : String
  due_date : Option String
  status : String
  created_at : Option String
  updated_at : Option String
  priority_level : String
  notes : Option String
deriving Repr, DecidableEq

/-- A key/value row (JSON object / Supabase row).  none = key absent or null. -/
structure Row where
  id : Option ℤ := none
  title : Option String := none
  due_date : Option String := none
  priority : Option String := none
  priority_level : Option String := none
  status : Option String := none
  created_at : Option String := none
  updated_at : Option String := none
deriving Repr, DecidableEq

def PriorityTask.to_dict (t : PriorityTask) : Row :=
  { id := t.task_id, title := some t.title, due_date := t.due_date,
    priority := some t.priority_level, status := some t.status,
    created_at := t.created_at, updated_at := t.updated_at }

def PriorityTask.from_dict (d : Row) : PriorityTask :=
  { task_id := d.id, title := d.title.getD "", due_date := d.due_date,
    status := d.status.getD "Pending",
    priority_level := _normalize_priority (pyOr d.priority d.priority_level),
    created_at := d.created_at, updated_at := d.updated_at, notes := none }

/-- The equality the Python dataclass generates: all declared fields, not the
dynamically attached notes attribute. -/
def dataclassEq (a b : PriorityTask) : Prop :=
  a.task_id = b.task_id ∧ a.title = b.title ∧ a.due_date = b.due_date ∧
  a.status = b.status ∧ a.created_at = b.created_at ∧ a.updated_at = b.updated_at ∧
  a.priority_level = b.priority_level

/-! ## Manager state -/

structure DatabaseManager where
  supabase : Bool
  remoteRows : List Row
  insertResponses : List (Option Row)
deriving Repr, DecidableEq

structure TaskManager where
  db : DatabaseManager
  tasks : List PriorityTask
  jsonFile : List Row
deriving Repr, DecidableEq

def save_json (st : TaskManager) : TaskManager :=
  { st with jsonFile := st.tasks.map PriorityTask.to_dict }

def _next_local_id (tasks : List PriorityTask) : ℤ :=
  ((tasks.map (fun t => t.task_id.getD 0)).max?.getD 0) + 1

/-- TaskManager.add_task.  When supabase is active the next insert response is
consumed; a returned row is adopted wholesale (the task is built from the row,
not from the arguments), otherwise creation falls through to the local path. -/
def add_task (st : TaskManager) (now : String) (title : String) (due_date : Option String)
    (priority : String) (status : String) : TaskManager × PriorityTask :=
  let priority_n := _normalize_priority (some priority)
  let resp : Option Row := if st.db.supabase then st.db.insertResponses.headD none else none
  let st0 : TaskManager :=
    if st.db.supabase then
      { st with db := { st.db with insertResponses := st.db.insertResponses.tail } }
    else st
  match resp with
  | some row =>
    let t0 := PriorityTask.from_dict row
    let t1 := if !strTruthy t0.created_at then { t0 with created_at := some now } else t0
    let task := { t1 with updated_at := some now }
    (save_json { st0 with tasks := st0.tasks ++ [task] }, task)
  | none =>
    let local_id := _next_local_id st0.tasks
    let task : PriorityTask :=
      { task_id := some local_id, title := title, due_date := due_date, status := status,
        created_at := some now, updated_at := some now, priority_level := priority_n,
        notes := none }
    (save_json { st0 with tasks := st0.tasks ++ [task] }, task)

/-- The keyword arguments of update_task: the five named fields a caller may
pass, plus the names of any other keywords (which the loop over the fixed
tuple never looks at). -/
structure UpdateFields where
  title : Option String := none
  due_date : Option (Option String) := none
  status : Option String := none
  priority_level : Option String := none
  notes : Option String := none
  unrecognized : List String := []
deriving Repr, DecidableEq

/-- The body of update_task's loop over ("title", "due_date", "status",
"priority_level"), followed by the updated_at refresh. -/
def applyFields (now : String) (f : UpdateFields) (t : PriorityTask) : PriorityTask :=
  { t with
    title := f.title.getD t.title,
    due_date := f.due_date.getD t.due_date,
    status := f.status.getD t.status,
    priority_level :=
      match f.priority_level with
      | some v => _normalize_priority (some v)
      | none => t.priority_level,
    updated_at := some now }

/-- Update the first element satisfying p (Python next over a generator),
returning the new list and the new element. -/
def updFirst {α : Type} (p : α → Bool) (f : α → α) : List α → Option (List α × α)
  | [] => none
  | x :: xs =>
    if p x then
      let x1 := f x
      some (x1 :: xs, x1)
    else
      match updFirst p f xs with
      | none => none
      | some res => some (x :: res.1, res.2)

def update_task (st : TaskManager) (now : String) (task_id : ℤ) (fields : UpdateFields) :
    TaskManager × Option PriorityTask :=
  match updFirst (fun t => t.task_id == some task_id) (applyFields now fields) st.tasks with
  | none => (st, none)
  | some res => (save_json { st with tasks := res.1 }, some res.2)

def complete_task (st : TaskManager) (now : String) (task_id : ℤ) :
    TaskManager × Option PriorityTask :=
  update_task st now task_id { status := some "Completed" }

def delete_task (st : TaskManager) (task_id : ℤ) : TaskManager × Bool :=
  if st.tasks.any (fun t => t.task_id == some task_id) then
    (save_json { st with tasks := st.tasks.filter (fun t => !(t.task_id == some task_id)) },
     true)
  else (st, false)

def snooze_task (st : TaskManager) (now : String) (task_id : ℤ) (days : ℤ) :
    TaskManager × Option PriorityTask :=
  match st.tasks.find? (fun t => t.task_id == some task_id) with
  | none => (st, none)
  | some task =>
    if !strTruthy task.due_date then (st, none)
    else
      match parseDate (task.due_date.getD "") with
      | none => (st, none)
      | some c =>
        if (toOrdinal c.1 c.2.1 c.2.2 : ℤ) + days < 1
            ∨ (date_max_ordinal : ℤ) < (toOrdinal c.1 c.2.1 c.2.2 : ℤ) + days then
          (st, none)
        else
          match updFirst (fun t => t.task_id == some task_id)
              (fun t => { t with
                due_date := some (isoOfOrdinal ((toOrdinal c.1 c.2.1 c.2.2 : ℤ) + days).toNat),
                updated_at := some now }) st.tasks with
          | none => (st, none)
          | some res => (save_json { st with tasks := res.1 }, some res.2)

/-! ## Urgency scoring -/

/-- Python round to an integer: round-half-even. -/
def round_half_even (q : ℚ) : ℤ :=
  let n := ⌊q⌋
  let r := q - (n : ℚ)
  if r < 1 / 2 then n
  else if 1 / 2 < r then n + 1
  else if n % 2 = 0 then n else n + 1

/-- Python round(x, 3). -/
def pyRound3 (q : ℚ) : ℚ := (round_half_even (q * 1000) : ℚ) / 1000

def compute_urgency_score (t : PriorityTask) (now_date : ℕ × ℕ × ℕ) : ℚ :=
  let weight := PRIORITY_WEIGHT t.priority_level
  match t.due_date with
  | none => weight
  | some s =>
    match parseDate s with
    | none => weight
    | some c =>
      let days_until : ℤ :=
        (toOrdinal c.1 c.2.1 c.2.2 : ℤ) - (toOrdinal now_date.1 now_date.2.1 now_date.2.2 : ℤ)
      let deadline_factor : ℚ :=
        if days_until ≤ 0 then 1 else max 0 ((30 - (days_until : ℚ)) / 30)
      pyRound3 (weight * (1 + deadline_factor))

/-- Insert x into a descending-sorted list after every element of at least its
score (so equal scores keep earlier elements first). -/
def insertDesc {α : Type} (score : α → ℚ) (x : α) : List α → List α
  | [] => [x]
  | y :: ys => if score x ≤ score y then y :: insertDesc score x ys else x :: y :: ys

/-- Stable descending sort by score.  Python sorted(key=score, reverse=True) is
a stable sort whose output is uniquely determined by stability plus the
descending order, which this insertion sort realizes. -/
def sortDesc {α : Type} (score : α → ℚ) (l : List α) : List α :=
  l.foldl (fun acc t => insertDesc score t acc) []

def get_sorted_by_urgency (st : TaskManager) (now_date : ℕ × ℕ × ℕ) : List PriorityTask :=
  sortDesc (fun t => compute_urgency_score t now_date) st.tasks

/-! ## Reconciliation -/

structure SyncSummary where
  pushed : ℕ
  pulled : ℕ
  updated : ℕ
deriving Repr, DecidableEq

/-- The single left-to-right pass building a Python dict keyed by row id:
first-insertion key order, value overwritten by the last row with that id;
rows without an id are skipped. -/
def buildByIdAux : List Row → List (ℤ × Row) → List (ℤ × Row)
  | [], acc => acc
  | r :: rest, acc =>
    buildByIdAux rest
      (match r.id with
       | none => acc
       | some i =>
         if acc.any (fun pr => pr.1 == i) then
           acc.map (fun pr => if pr.1 == i then (i, r) else pr)
         else acc ++ [(i, r)])

def buildById (rows : List Row) : List (ℤ × Row) := buildByIdAux rows []

/-- The remote_simple / local_simple comparison dicts of sync_with_remote. -/
structure Simple where
  title : Option String
  due_date : Option String
  status : Option String
  priority_level : String
  created_at : Option String
  updated_at : Option String
deriving Repr, DecidableEq

def remoteSimple (r : Row) : Simple :=
  { title := r.title, due_date := r.due_date, status := r.status,
    priority_level := _normalize_priority (pyOr r.priority r.priority_level),
    created_at := r.created_at, updated_at := r.updated_at }

def localSimple (t : PriorityTask) : Simple :=
  { title := some t.title, due_date := t.due_date, status := some t.status,
    priority_level := t.priority_level,
    created_at := t.created_at, updated_at := t.updated_at }

/-- The prefer-remote overwrite.  remote_simple always contains every key, so
the defaults of remote_simple.get("created_at", local.created_at) and
remote_simple.get("updated_at", _now_iso()) are dead: the remote values are
taken verbatim, even when they are None. -/
def overwriteFromRemote (r : Row) (t : PriorityTask) : PriorityTask :=
  let s := remoteSimple r
  { t with
    title := s.title.getD "",
    due_date := s.due_date,
    status := s.status.getD "",
    priority_level := s.priority_level,
    created_at := s.created_at,
    updated_at := s.updated_at }

/-- Apply f at the last element satisfying p (the element a Python dict
comprehension over the list maps the key to); f also reports whether it
changed anything. -/
def applyLast {α : Type} (p : α → Bool) (f : α → α × Bool) : List α → List α × Bool
  | [] => ([], false)
  | x :: xs =>
    if xs.any p then
      let res := applyLast p f xs
      (x :: res.1, res.2)
    else if p x then
      let res := f x
      (res.1 :: xs, res.2)
    else (x :: xs, false)

def pullStep (prefer_local : Bool) (rrow : Row) (t : PriorityTask) : PriorityTask × Bool :=
  if !prefer_local && remoteSimple rrow != localSimple t then
    (overwriteFromRemote rrow t, true)
  else (t, false)

/-- The pull loop of sync_with_remote, one dict item at a time.  Conflict
writes go through the local_by_id aliases, i.e. hit the pre-existing segment of
self.tasks; pulled rows are appended at the end.  The accumulator is (mutated
original segment, pulled segment, pulled count, updated count). -/
def pullPhase (prefer_local : Bool) (localIds : List ℤ) :
    List (ℤ × Row) → List PriorityTask × List PriorityTask × ℕ × ℕ →
    List PriorityTask × List PriorityTask × ℕ × ℕ
  | [], acc => acc
  | pr :: rest, acc =>
    pullPhase prefer_local localIds rest
      (if localIds.contains pr.1 then
        let res := applyLast (fun t => t.task_id == some pr.1) (pullStep prefer_local pr.2)
          acc.1
        (res.1, acc.2.1, acc.2.2.1, acc.2.2.2 + (if res.2 then 1 else 0))
      else (acc.1, acc.2.1 ++ [PriorityTask.from_dict pr.2], acc.2.2.1 + 1, acc.2.2.2))

def isPushCandidate (remoteIds : List ℤ) (t : PriorityTask) : Bool :=
  match t.task_id with
  | none => true
  | some i => !(remoteIds.contains i)

/-- Under `if row and row.get("id") is not None`, adopt the server-issued id
into the local task; otherwise leave the task as it is. -/
def adoptId (t : PriorityTask) (resp : Option Row) : PriorityTask :=
  match resp with
  | some row =>
    (match row.id with
     | some i => { t with task_id := some i }
     | none => t)
  | none => t

/-- The push loop of sync_with_remote: every candidate consumes the next
insert response; a returned row with an id is adopted as the local id; pushed
is incremented for every candidate. -/
def pushPhase (remoteIds : List ℤ) :
    List PriorityTask → List (Option Row) → List PriorityTask × List (Option Row) × ℕ
  | [], stream => ([], stream, 0)
  | t :: ts, stream =>
    if isPushCandidate remoteIds t then
      let t1 := adoptId t (stream.headD none)
      let res := pushPhase remoteIds ts stream.tail
      (t1 :: res.1, res.2.1, res.2.2 + 1)
    else
      let res := pushPhase remoteIds ts stream
      (t :: res.1, res.2.1, res.2.2)

def sync_with_remote (st : TaskManager) (prefer_local : Bool) (now : String) :
    TaskManager × SyncSummary :=
  if !st.db.supabase then (st, { pushed := 0, pulled := 0, updated := 0 })
  else
    let pairs := buildById st.db.remoteRows
    let localIds := st.tasks.filterMap (fun t => t.task_id)
    let res := pullPhase prefer_local localIds pairs (st.tasks, [], 0, 0)
    let tasks1 := res.1 ++ res.2.1
    let remoteIds := pairs.map (fun pr => pr.1)
    let res2 := pushPhase remoteIds tasks1 st.db.insertResponses
    let st1 : TaskManager :=
      { db := { st.db with insertResponses := res2.2.1 }, tasks := res2.1,
        jsonFile := res2.1.map PriorityTask.to_dict }
    (st1, { pushed := res2.2.2, pulled := res.2.2.1, updated := res.2.2.2 })

/-! ## Concrete fixtures -/

def writeReportTask : PriorityTask :=
  { task_id := some 1, title := "Write report", due_date := some "2025-06-01",
    status := "Pending", created_at := none, updated_at := none,
    priority_level := "High", notes := none }

def noDueTask : PriorityTask := { writeReportTask with due_date := none }

def badDueTask : PriorityTask := { writeReportTask with due_date := some "not-a-date" }

def emptyLocalState : TaskManager :=
  { db := { supabase := false, remoteRows := [], insertResponses := [] },
    tasks := [], jsonFile := [] }

/-! ## Claims -/

/-- C10: when the database manager has no supabase client, sync_with_remote
returns the all-zero summary and changes neither the in-memory collection nor
the JSON file (no save happens). -/
theorem sync_no_remote_is_noop (rows : List Row) (resps : List (Option Row))
    (tasks : List PriorityTask) (file : List Row) (prefer_local : Bool) (now : String) :
    sync_with_remote ⟨⟨false, rows, resps⟩, tasks, file⟩ prefer_local now
      = (⟨⟨false, rows, resps⟩, tasks, file⟩, ⟨0, 0, 0⟩) := rfl

def rowFive : Row := { id := some 5, title := some "T", status := some "Completed" }

def taskFive : PriorityTask :=
  { task_id := some 5, title := "T", due_date := none, status := "Pending",
    created_at := some "2025-01-01T00:00:00Z", updated_at := some "2025-01-02T00:00:00Z",
    priority_level := "Normal", notes := none }

def stateFive : TaskManager :=
  { db := { supabase := true, remoteRows := [rowFive], insertResponses := [] },
    tasks := [taskFive], jsonFile := [] }

/-- C2 (code bug): syncing with prefer_local = false against a remote row for
an existing id that carries no created_at/updated_at does overwrite
title/due_date/status/priority_level and bumps updated (here status becomes
Completed and updated = 1), but it also sets the local created_at and
updated_at to None: the dict.get defaults that were meant to keep the local
created_at and to fall back to the current time are dead because remote_simple
always contains both keys. -/
theorem sync_prefer_remote_timestamp_bug :
    (sync_with_remote stateFive false "2025-06-01T00:00:00Z").2
        = { pushed := 0, pulled := 0, updated := 1 } ∧
    (sync_with_remote stateFive false "2025-06-01T00:00:00Z").1.tasks
        = [{ task_id := some 5, title := "T", due_date := none, status := "Completed",
             created_at := none, updated_at := none, priority_level := "Normal",
             notes := none }] := by
  exact ⟨rfl, rfl⟩

/-- C5 counterexample: add_task with an empty title does not fail — it creates
a task with the empty title, appends it and persists it. -/
theorem add_task_empty_title_creates :
    (add_task emptyLocalState "2025-06-01T00:00:00Z" "" none "Normal" "Pending").1.tasks
        = [{ task_id := some 1, title := "", due_date := none, status := "Pending",
             created_at := some "2025-06-01T00:00:00Z",
             updated_at := some "2025-06-01T00:00:00Z",
             priority_level := "Normal", notes := none }] ∧
    pyStrip "" = "" := ⟨rfl, rfl⟩

/-- C5 amended: add_task performs no title validation at all (empty-title
rejection lives in the GUI layer); even for a title that is empty after
trimming it always creates a task, appends it to the collection and persists
the collection. -/
theorem add_task_never_fails (st : TaskManager) (now title : String)
    (due : Option String) (priority status : String) (h : pyStrip title = "") :
    (add_task st now title due priority status).1.tasks
        = st.tasks ++ [(add_task st now title due priority status).2] ∧
    (add_task st now title due priority status).1.jsonFile
        = (add_task st now title due priority status).1.tasks.map PriorityTask.to_dict := by
  unfold add_task
  cases hsup : st.db.supabase
  · simp [save_json]
  · cases hresp : st.db.insertResponses.headD none <;> simp [hresp, save_json]

/-- Witness for the amended C5 theorem at a concrete empty-after-trim title. -/
theorem add_task_never_fails_witness :
    pyStrip "  " = "" ∧
    ((add_task emptyLocalState "now" "  " none "High" "Pending").1.tasks
        = emptyLocalState.tasks ++ [(add_task emptyLocalState "now" "  " none "High" "Pending").2] ∧
     (add_task emptyLocalState "now" "  " none "High" "Pending").1.jsonFile
        = (add_task emptyLocalState "now" "  " none "High" "Pending").1.tasks.map
            PriorityTask.to_dict) :=
  ⟨by decide, add_task_never_fails emptyLocalState "now" "  " none "High" "Pending" (by decide)⟩

/-- C1: compute_urgency_score returns the priority weight (1 for Low, 2 for
Normal, 3 for High) when the task has no parseable due date, and otherwise
weight * (1 + deadline_factor) rounded to 3 decimals, with deadline_factor = 1
when days_until = due - today ≤ 0 and max 0 ((30 - days_until) / 30) otherwise;
a High task due 2025-06-01 scored with today = 2025-05-31 yields exactly 5.9. -/
theorem compute_urgency_score_spec :
    (PRIORITY_WEIGHT "Low" = 1 ∧ PRIORITY_WEIGHT "Normal" = 2 ∧ PRIORITY_WEIGHT "High" = 3) ∧
    (∀ (t : PriorityTask) (nd : ℕ × ℕ × ℕ), t.due_date = none →
        compute_urgency_score t nd = PRIORITY_WEIGHT t.priority_level) ∧
    (∀ (t : PriorityTask) (nd : ℕ × ℕ × ℕ) (s : String), t.due_date = some s →
        parseDate s = none →
        compute_urgency_score t nd = PRIORITY_WEIGHT t.priority_level) ∧
    (∀ (t : PriorityTask) (nd : ℕ × ℕ × ℕ) (s : String) (c : ℕ × ℕ × ℕ),
        t.due_date = some s → parseDate s = some c →
        compute_urgency_score t nd =
          pyRound3 (PRIORITY_WEIGHT t.priority_level *
            (1 + (if (toOrdinal c.1 c.2.1 c.2.2 : ℤ) - (toOrdinal nd.1 nd.2.1 nd.2.2 : ℤ) ≤ 0
                  then 1
                  else max 0 ((30 - (((toOrdinal c.1 c.2.1 c.2.2 : ℤ)
                        - (toOrdinal nd.1 nd.2.1 nd.2.2 : ℤ) : ℤ) : ℚ)) / 30))))) ∧
    compute_urgency_score writeReportTask (2025, 5, 31) = 59 / 10 := by
  refine ⟨⟨rfl, rfl, rfl⟩, ?_, ?_, ?_, ?_⟩
  · intro t nd h
    simp only [compute_urgency_score, h]
  · intro t nd s h hp
    simp only [compute_urgency_score, h, hp]
  · intro t nd s c h hp
    simp only [compute_urgency_score, h, hp]
  · have h1 : parseDate "2025-06-01" = some (2025, 6, 1) := by decide
    have h2 : toOrdinal 2025 6 1 = 739403 := by decide
    have h3 : toOrdinal 2025 5 31 = 739402 := by decide
    have hw : PRIORITY_WEIGHT "High" = 3 := rfl
    simp only [compute_urgency_score, writeReportTask, h1, h2, h3, hw]
    have h4 : ((739403 : ℕ) : ℤ) - ((739402 : ℕ) : ℤ) = 1 := by norm_num
    rw [h4, if_neg (by norm_num), max_eq_right (by norm_num)]
    have h5 : (3 : ℚ) * (1 + (30 - ((1 : ℤ) : ℚ)) / 30) * 1000 = ((5900 : ℤ) : ℚ) := by
      norm_num
    unfold pyRound3 round_half_even
    rw [h5, Int.floor_intCast]
    norm_num

/-- Witness for C1: each branch of the theorem applied at a concrete task and
reference date. -/
theorem compute_urgency_score_spec_witness :
    compute_urgency_score noDueTask (2025, 5, 31) = PRIORITY_WEIGHT "High" ∧
    compute_urgency_score badDueTask (2025, 5, 31) = PRIORITY_WEIGHT "High" ∧
    compute_urgency_score writeReportTask (2025, 5, 31) =
      pyRound3 (PRIORITY_WEIGHT "High" *
        (1 + (if (toOrdinal 2025 6 1 : ℤ) - (toOrdinal 2025 5 31 : ℤ) ≤ 0
              then 1
              else max 0 ((30 - (((toOrdinal 2025 6 1 : ℤ)
                    - (toOrdinal 2025 5 31 : ℤ) : ℤ) : ℚ)) / 30)))) :=
  ⟨compute_urgency_score_spec.2.1 noDueTask (2025, 5, 31) rfl,
   compute_urgency_score_spec.2.2.1 badDueTask (2025, 5, 31) "not-a-date" rfl (by decide),
   compute_urgency_score_spec.2.2.2.1 writeReportTask (2025, 5, 31) "2025-06-01"
     (2025, 6, 1) rfl (by decide)⟩

/-- C7: for every task with canonical priority_level whose due_date is absent
or a valid ISO date, parsing the serialized row gives a task dataclass-equal to
the original. -/
theorem from_dict_to_dict_roundtrip (t : PriorityTask)
    (hp : t.priority_level = "Low" ∨ t.priority_level = "Normal" ∨ t.priority_level = "High")
    (hd : t.due_date = none ∨ ∃ c, parseDate (t.due_date.getD "") = some c) :
    dataclassEq (PriorityTask.from_dict t.to_dict) t := by
  obtain ⟨tid, title, due, stat, ca, ua, pl, notes⟩ := t
  refine ⟨rfl, rfl, rfl, rfl, rfl, rfl, ?_⟩
  simp only [PriorityTask.to_dict, PriorityTask.from_dict]
  rcases hp with hp | hp | hp <;> simp only at hp <;> subst hp <;> rfl

/-- Witness for C7 at a concrete valid task. -/
theorem from_dict_to_dict_roundtrip_witness :
    dataclassEq (PriorityTask.from_dict writeReportTask.to_dict) writeReportTask :=
  from_dict_to_dict_roundtrip writeReportTask (Or.inr (Or.inr rfl))
    (Or.inr ⟨(2025, 6, 1), by decide⟩)

/-! ## Helper lemmas about first-match update -/

theorem updFirst_eq_none_of_all {α : Type} (p : α → Bool) (f : α → α) (l : List α)
    (h : ∀ x ∈ l, p x = false) : updFirst p f l = none := by
  induction l with
  | nil => rfl
  | cons x xs ih =>
    simp only [updFirst]
    rw [h x (List.mem_cons_self x xs)]
    simp only [Bool.false_eq_true, if_false,
      ih (fun y hy => h y (List.mem_cons_of_mem x hy))]

theorem updFirst_append {α : Type} (p : α → Bool) (f : α → α) (l1 : List α) (t : α)
    (l2 : List α) (h1 : ∀ x ∈ l1, p x = false) (ht : p t = true) :
    updFirst p f (l1 ++ t :: l2) = some (l1 ++ f t :: l2, f t) := by
  induction l1 with
  | nil => simp [updFirst, ht]
  | cons x xs ih =>
    simp only [List.cons_append, updFirst]
    rw [h1 x (List.mem_cons_self x xs)]
    simp only [Bool.false_eq_true, if_false, List.append_eq,
      ih (fun y hy => h1 y (List.mem_cons_of_mem x hy))]

theorem find?_append_first {α : Type} (p : α → Bool) (l1 : List α) (t : α) (l2 : List α)
    (h1 : ∀ x ∈ l1, p x = false) (ht : p t = true) :
    (l1 ++ t :: l2).find? p = some t := by
  induction l1 with
  | nil => simp [List.find?_cons_of_pos, ht]
  | cons x xs ih =>
    rw [List.cons_append, List.find?_cons_of_neg _ (by
      rw [h1 x (List.mem_cons_self x xs)]; simp)]
    exact ih (fun y hy => h1 y (List.mem_cons_of_mem x hy))

/-! ## Claim C6 -/

def plainTask : PriorityTask :=
  { task_id := some 1, title := "A", due_date := none, status := "Pending",
    created_at := some "2025-01-01T00:00:00Z", updated_at := some "2025-01-01T00:00:00Z",
    priority_level := "Normal", notes := none }

def plainState : TaskManager :=
  { db := { supabase := false, remoteRows := [], insertResponses := [] },
    tasks := [plainTask], jsonFile := [plainTask.to_dict] }

/-- C6 counterexample: update_task passed a notes field does not apply it —
the loop runs over the fixed tuple ("title", "due_date", "status",
"priority_level") only, so the task's notes stay unchanged (none here, not the
supplied string). -/
theorem update_task_ignores_notes :
    (update_task plainState "2025-02-01T00:00:00Z" 1 { notes := some "remember" }).2
      = some { plainTask with updated_at := some "2025-02-01T00:00:00Z" } ∧
    ((update_task plainState "2025-02-01T00:00:00Z" 1
        { notes := some "remember" }).2.map PriorityTask.notes) = some none :=
  ⟨rfl, rfl⟩

/-- C6 amended: update_task on an existing task_id applies exactly the
recognized fields title, due_date, status and priority_level (notes, like any
unrecognized field, is silently ignored), re-normalizes priority_level when
present, always refreshes updated_at, persists, and returns None when no task
has the given id (leaving the state untouched). -/
theorem update_task_spec :
    (∀ (st : TaskManager) (now : String) (task_id : ℤ) (f : UpdateFields),
        (∀ t ∈ st.tasks, (t.task_id == some task_id) = false) →
        update_task st now task_id f = (st, none)) ∧
    (∀ (st : TaskManager) (now : String) (task_id : ℤ) (f : UpdateFields)
        (l1 : List PriorityTask) (t : PriorityTask) (l2 : List PriorityTask),
        st.tasks = l1 ++ t :: l2 →
        (∀ u ∈ l1, (u.task_id == some task_id) = false) →
        (t.task_id == some task_id) = true →
        update_task st now task_id f =
          (save_json { st with tasks := l1 ++ applyFields now f t :: l2 },
           some (applyFields now f t))) ∧
    (∀ (now : String) (f : UpdateFields) (t : PriorityTask),
        (applyFields now f t).title = f.title.getD t.title ∧
        (applyFields now f t).due_date = f.due_date.getD t.due_date ∧
        (applyFields now f t).status = f.status.getD t.status ∧
        (applyFields now f t).priority_level =
          (match f.priority_level with
           | some v => _normalize_priority (some v)
           | none => t.priority_level) ∧
        (applyFields now f t).notes = t.notes ∧
        (applyFields now f t).created_at = t.created_at ∧
        (applyFields now f t).task_id = t.task_id ∧
        (applyFields now f t).updated_at = some now) ∧
    (∀ (st : TaskManager) (now : String) (task_id : ℤ) (f : UpdateFields),
        update_task st now task_id f =
          update_task st now task_id
            { title := f.title, due_date := f.due_date, status := f.status,
              priority_level := f.priority_level, notes := none, unrecognized := [] }) := by
  refine ⟨?_, ?_, ?_, ?_⟩
  · intro st now tid f h
    unfold update_task
    rw [updFirst_eq_none_of_all _ _ _ h]
  · intro st now tid f l1 t l2 hst h1 ht
    unfold update_task
    rw [hst, updFirst_append _ _ _ _ _ h1 ht]
  · intro now f t
    exact ⟨rfl, rfl, rfl, rfl, rfl, rfl, rfl, rfl⟩
  · intro st now tid f
    rfl

/-- Witness for C6 at a missing id and at an existing id. -/
theorem update_task_spec_witness :
    update_task plainState "now" 2 { title := some "B" } = (plainState, none) ∧
    update_task plainState "now" 1 { title := some "B" } =
      (save_json { plainState with
         tasks := [] ++ applyFields "now" { title := some "B" } plainTask :: [] },
       some (applyFields "now" { title := some "B" } plainTask)) :=
  ⟨update_task_spec.1 plainState "now" 2 { title := some "B" } (by decide),
   update_task_spec.2.1 plainState "now" 1 { title := some "B" } [] plainTask [] rfl
     (by intro u hu; cases hu) (by decide)⟩

/-! ## Claim C8 -/

/-- C8: snooze_task returns None and changes nothing when the task_id is
absent or the task has no or an unparseable due_date; otherwise it advances
due_date by exactly the given number of calendar days (via the date ordinal),
refreshes updated_at, persists, and returns the task; a task due 2025-06-01
snoozed by 3 days becomes due 2025-06-04. -/
theorem snooze_task_spec :
    (∀ (st : TaskManager) (now : String) (task_id days : ℤ),
        st.tasks.find? (fun t => t.task_id == some task_id) = none →
        snooze_task st now task_id days = (st, none)) ∧
    (∀ (st : TaskManager) (now : String) (task_id days : ℤ) (t : PriorityTask),
        st.tasks.find? (fun t => t.task_id == some task_id) = some t →
        strTruthy t.due_date = false →
        snooze_task st now task_id days = (st, none)) ∧
    (∀ (st : TaskManager) (now : String) (task_id days : ℤ) (t : PriorityTask),
        st.tasks.find? (fun t => t.task_id == some task_id) = some t →
        strTruthy t.due_date = true →
        parseDate (t.due_date.getD "") = none →
        snooze_task st now task_id days = (st, none)) ∧
    (∀ (st : TaskManager) (now : String) (task_id days : ℤ)
        (l1 : List PriorityTask) (t : PriorityTask) (l2 : List PriorityTask)
        (c : ℕ × ℕ × ℕ),
        st.tasks = l1 ++ t :: l2 →
        (∀ u ∈ l1, (u.task_id == some task_id) = false) →
        (t.task_id == some task_id) = true →
        strTruthy t.due_date = true →
        parseDate (t.due_date.getD "") = some c →
        1 ≤ (toOrdinal c.1 c.2.1 c.2.2 : ℤ) + days →
        (toOrdinal c.1 c.2.1 c.2.2 : ℤ) + days ≤ (date_max_ordinal : ℤ) →
        snooze_task st now task_id days =
          (save_json { st with tasks :=
              l1 ++ { t with
                due_date := some (isoOfOrdinal ((toOrdinal c.1 c.2.1 c.2.2 : ℤ) + days).toNat),
                updated_at := some now } :: l2 },
           some { t with
                due_date := some (isoOfOrdinal ((toOrdinal c.1 c.2.1 c.2.2 : ℤ) + days).toNat),
                updated_at := some now })) ∧
    isoOfOrdinal ((toOrdinal 2025 6 1 : ℤ) + 3).toNat = "2025-06-04" := by
  refine ⟨?_, ?_, ?_, ?_, by decide⟩
  · intro st now tid days h
    unfold snooze_task
    rw [h]
  · intro st now tid days t hf hd
    unfold snooze_task
    rw [hf]
    simp [hd]
  · intro st now tid days t hf hd hp
    unfold snooze_task
    rw [hf]
    simp [hd, hp]
  · intro st now tid days l1 t l2 c hst h1 ht hd hp hlo hhi
    unfold snooze_task
    rw [hst, find?_append_first _ _ _ _ h1 ht]
    simp only [hd, Bool.not_true, Bool.false_eq_true, if_false, hp]
    rw [if_neg (by push_neg; omega), updFirst_append _ _ _ _ _ h1 ht]

def snoozedReportTask : PriorityTask :=
  { writeReportTask with
    due_date := some "2025-06-04", updated_at := some "2025-06-02T00:00:00Z" }

/-- Witness for C8: snoozing the report task due 2025-06-01 by 3 days makes it
due 2025-06-04 and refreshes updated_at; snoozing a task without a due date
returns none and changes nothing. -/
theorem snooze_task_spec_witness :
    snooze_task ⟨⟨false, [], []⟩, [writeReportTask], []⟩ "2025-06-02T00:00:00Z" 1 3 =
      (⟨⟨false, [], []⟩, [snoozedReportTask], [snoozedReportTask.to_dict]⟩,
       some snoozedReportTask) ∧
    snooze_task ⟨⟨false, [], []⟩, [noDueTask], []⟩ "now" 1 5 =
      (⟨⟨false, [], []⟩, [noDueTask], []⟩, none) := by
  constructor
  · rw [snooze_task_spec.2.2.2.1 ⟨⟨false, [], []⟩, [writeReportTask], []⟩
      "2025-06-02T00:00:00Z" 1 3 [] writeReportTask [] (2025, 6, 1) rfl
      (by intro u hu; cases hu) (by decide) (by decide) (by decide) (by decide) (by decide)]
    decide
  · exact snooze_task_spec.2.1 ⟨⟨false, [], []⟩, [noDueTask], []⟩ "now" 1 5 noDueTask
      (by decide) (by decide)

/-! ## Claim C9: stable descending sort -/

theorem insertDesc_perm {α : Type} (score : α → ℚ) (x : α) (l : List α) :
    List.Perm (insertDesc score x l) (x :: l) := by
  induction l with
  | nil => exact List.Perm.refl _
  | cons y ys ih =>
    simp only [insertDesc]
    split
    · exact (ih.cons y).trans (List.Perm.swap x y ys)
    · exact List.Perm.refl _

theorem insertDesc_pairwise {α : Type} (score : α → ℚ) (x : α) (l : List α)
    (h : List.Pairwise (fun a b => score b ≤ score a) l) :
    List.Pairwise (fun a b => score b ≤ score a) (insertDesc score x l) := by
  induction l with
  | nil => simp [insertDesc]
  | cons y ys ih =>
    rcases h with _ | ⟨hy, hys⟩
    simp only [insertDesc]
    split
    · rename_i hcond
      refine List.Pairwise.cons ?_ (ih hys)
      intro z hz
      rcases List.mem_cons.mp ((insertDesc_perm score x ys).mem_iff.mp hz) with rfl | hz2
      · exact hcond
      · exact hy z hz2
    · rename_i hcond
      refine List.Pairwise.cons ?_ (List.Pairwise.cons hy hys)
      intro z hz
      rcases List.mem_cons.mp hz with rfl | hz2
      · exact le_of_lt (lt_of_not_le hcond)
      · exact le_trans (hy z hz2) (le_of_lt (lt_of_not_le hcond))

theorem insertDesc_filter {α : Type} (score : α → ℚ) (x : α) (l : List α) (v : ℚ)
    (h : List.Pairwise (fun a b => score b ≤ score a) l) :
    (insertDesc score x l).filter (fun a => decide (score a = v)) =
      (if score x = v
       then l.filter (fun a => decide (score a = v)) ++ [x]
       else l.filter (fun a => decide (score a = v))) := by
  induction l with
  | nil =>
    simp only [insertDesc, List.filter]
    by_cases hxv : score x = v <;> simp [hxv]
  | cons y ys ih =>
    rcases h with _ | ⟨hy, hys⟩
    simp only [insertDesc]
    by_cases hcond : score x ≤ score y
    · rw [if_pos hcond]
      by_cases hyv : score y = v <;>
        by_cases hxv : score x = v <;>
          simp [List.filter_cons, hyv, hxv, ih hys]
    · rw [if_neg hcond]
      have hylt : score y < score x := lt_of_not_le hcond
      by_cases hxv : score x = v
      · rw [if_pos hxv]
        have hemp : (y :: ys).filter (fun a => decide (score a = v)) = [] := by
          rw [List.filter_eq_nil_iff]
          intro z hz
          simp only [decide_eq_true_eq]
          intro hzv
          have h1 : score z < score x := by
            rcases List.mem_cons.mp hz with rfl | hz2
            · exact hylt
            · exact lt_of_le_of_lt (hy z hz2) hylt
          rw [hzv, hxv] at h1
          exact lt_irrefl v h1
        simp [List.filter_cons, hxv, hemp]
      · rw [if_neg hxv]
        simp [List.filter_cons, hxv]

theorem sortDesc_perm_aux {α : Type} (score : α → ℚ) (l : List α) : ∀ acc : List α,
    List.Perm (l.foldl (fun acc t => insertDesc score t acc) acc) (acc ++ l) := by
  induction l with
  | nil => intro acc; simp
  | cons x xs ih =>
    intro acc
    simp only [List.foldl_cons]
    refine (ih (insertDesc score x acc)).trans ?_
    refine (((insertDesc_perm score x acc).append_right xs).trans ?_)
    exact (List.perm_middle).symm

theorem sortDesc_pairwise_aux {α : Type} (score : α → ℚ) (l : List α) : ∀ acc : List α,
    List.Pairwise (fun a b => score b ≤ score a) acc →
    List.Pairwise (fun a b => score b ≤ score a)
      (l.foldl (fun acc t => insertDesc score t acc) acc) := by
  induction l with
  | nil => intro acc h; exact h
  | cons x xs ih =>
    intro acc h
    exact ih (insertDesc score x acc) (insertDesc_pairwise score x acc h)

theorem sortDesc_filter_aux {α : Type} (score : α → ℚ) (v : ℚ) (l : List α) :
    ∀ acc : List α,
    List.Pairwise (fun a b => score b ≤ score a) acc →
    (l.foldl (fun acc t => insertDesc score t acc) acc).filter
        (fun a => decide (score a = v))
      = acc.filter (fun a => decide (score a = v))
          ++ l.filter (fun a => decide (score a = v)) := by
  induction l with
  | nil => intro acc _; simp
  | cons x xs ih =>
    intro acc h
    simp only [List.foldl_cons]
    rw [ih (insertDesc score x acc) (insertDesc_pairwise score x acc h)]
    rw [insertDesc_filter score x acc v h]
    by_cases hxv : score x = v <;> simp [List.filter_cons, hxv]

/-! ## Helper notions and lemmas for the reconciliation claims -/

/-- Identifiers assigned in a collection (tasks with task_id = None excluded). -/
def assignedIds (l : List PriorityTask) : List ℤ := l.filterMap (fun t => t.task_id)

/-- Server-issued identifiers carried by a stream of insert responses. -/
def respIds (stream : List (Option Row)) : List ℤ :=
  stream.filterMap (fun o => o.bind Row.id)

/-- A task with its identifier erased: what the push phase leaves untouched
when it adopts a server id. -/
def sansId (t : PriorityTask) : PriorityTask := { t with task_id := none }

theorem sync_components (rows : List Row) (resps : List (Option Row))
    (tasks : List PriorityTask) (file : List Row) (pl : Bool) (now : String) :
    (sync_with_remote ⟨⟨true, rows, resps⟩, tasks, file⟩ pl now).1.tasks
        = (pushPhase ((buildById rows).map Prod.fst)
            ((pullPhase pl (tasks.filterMap (fun t => t.task_id)) (buildById rows)
                (tasks, [], 0, 0)).1
              ++ (pullPhase pl (tasks.filterMap (fun t => t.task_id)) (buildById rows)
                (tasks, [], 0, 0)).2.1) resps).1 ∧
    (sync_with_remote ⟨⟨true, rows, resps⟩, tasks, file⟩ pl now).2.pushed
        = (pushPhase ((buildById rows).map Prod.fst)
            ((pullPhase pl (tasks.filterMap (fun t => t.task_id)) (buildById rows)
                (tasks, [], 0, 0)).1
              ++ (pullPhase pl (tasks.filterMap (fun t => t.task_id)) (buildById rows)
                (tasks, [], 0, 0)).2.1) resps).2.2 ∧
    (sync_with_remote ⟨⟨true, rows, resps⟩, tasks, file⟩ pl now).2.pulled
        = (pullPhase pl (tasks.filterMap (fun t => t.task_id)) (buildById rows)
            (tasks, [], 0, 0)).2.2.1 ∧
    (sync_with_remote ⟨⟨true, rows, resps⟩, tasks, file⟩ pl now).2.updated
        = (pullPhase pl (tasks.filterMap (fun t => t.task_id)) (buildById rows)
            (tasks, [], 0, 0)).2.2.2 :=
  ⟨rfl, rfl, rfl, rfl⟩

theorem pullStep_tid (pl : Bool) (rrow : Row) (t : PriorityTask) :
    (pullStep pl rrow t).1.task_id = t.task_id := by
  unfold pullStep
  split <;> rfl

theorem applyLast_map_tid (p : PriorityTask → Bool) (f : PriorityTask → PriorityTask × Bool)
    (hf : ∀ t, (f t).1.task_id = t.task_id) :
    ∀ l : List PriorityTask,
      (applyLast p f l).1.map (fun t => t.task_id) = l.map (fun t => t.task_id)
  | [] => rfl
  | x :: xs => by
    simp only [applyLast]
    split
    · simp [applyLast_map_tid p f hf xs]
    · split
      · simp [hf x]
      · simp

theorem pullPhase_map_tid (pl : Bool) (lids : List ℤ) :
    ∀ (pairs : List (ℤ × Row)) (ts ps : List PriorityTask) (n m : ℕ),
      (pullPhase pl lids pairs (ts, ps, n, m)).1.map (fun t => t.task_id)
        = ts.map (fun t => t.task_id)
  | [], ts, ps, n, m => rfl
  | pr :: rest, ts, ps, n, m => by
    simp only [pullPhase]
    by_cases hc : pr.1 ∈ lids <;>
      simp [hc, pullPhase_map_tid pl lids rest,
        applyLast_map_tid (fun t => t.task_id == some pr.1) (pullStep pl pr.2)
          (fun t => pullStep_tid pl pr.2 t)]

theorem pullPhase_pulls (pl : Bool) (lids : List ℤ) :
    ∀ (pairs : List (ℤ × Row)) (ts ps : List PriorityTask) (n m : ℕ),
      (pullPhase pl lids pairs (ts, ps, n, m)).2.1
        = ps ++ (pairs.filter (fun pr => !(lids.contains pr.1))).map
            (fun pr => PriorityTask.from_dict pr.2)
  | [], ts, ps, n, m => by simp [pullPhase]
  | pr :: rest, ts, ps, n, m => by
    simp only [pullPhase]
    by_cases hc : pr.1 ∈ lids <;>
      simp [hc, List.filter_cons, pullPhase_pulls pl lids rest]

theorem pullPhase_pulled (pl : Bool) (lids : List ℤ) :
    ∀ (pairs : List (ℤ × Row)) (ts ps : List PriorityTask) (n m : ℕ),
      (pullPhase pl lids pairs (ts, ps, n, m)).2.2.1
        = n + (pairs.filter (fun pr => !(lids.contains pr.1))).length
  | [], ts, ps, n, m => by simp [pullPhase]
  | pr :: rest, ts, ps, n, m => by
    simp only [pullPhase]
    by_cases hc : pr.1 ∈ lids <;>
      simp [hc, List.filter_cons, pullPhase_pulled pl lids rest] <;> omega

theorem pushPhase_length (R : List ℤ) :
    ∀ (ts : List PriorityTask) (stream : List (Option Row)),
      (pushPhase R ts stream).1.length = ts.length
  | [], _ => rfl
  | t :: ts, s => by
    simp only [pushPhase]
    split
    · simp [pushPhase_length R ts s.tail]
    · simp [pushPhase_length R ts s]

theorem pushPhase_pushed (R : List ℤ) :
    ∀ (ts : List PriorityTask) (stream : List (Option Row)),
      (pushPhase R ts stream).2.2 = (ts.filter (isPushCandidate R)).length
  | [], _ => rfl
  | t :: ts, s => by
    simp only [pushPhase]
    by_cases hc : isPushCandidate R t <;>
      simp [hc, List.filter_cons, pushPhase_pushed R ts s.tail, pushPhase_pushed R ts s]

theorem adoptId_sansId (t : PriorityTask) (o : Option Row) :
    sansId (adoptId t o) = sansId t := by
  unfold adoptId
  split
  · split
    · rfl
    · rfl
  · rfl

theorem pushPhase_sansId (R : List ℤ) :
    ∀ (ts : List PriorityTask) (stream : List (Option Row)),
      (pushPhase R ts stream).1.map sansId = ts.map sansId
  | [], _ => rfl
  | t :: ts, s => by
    simp only [pushPhase]
    split
    · simp [adoptId_sansId, pushPhase_sansId R ts s.tail]
    · simp [pushPhase_sansId R ts s]

theorem keys_map_replace (acc : List (ℤ × Row)) (i : ℤ) (r : Row) :
    (acc.map (fun pr => if pr.1 == i then (i, r) else pr)).map Prod.fst
      = acc.map Prod.fst := by
  rw [List.map_map]
  apply List.map_congr_left
  intro pr _
  by_cases hpi : pr.1 = i
  · simp [hpi]
  · simp [hpi]

theorem buildByIdAux_vals : ∀ (rows : List Row) (acc : List (ℤ × Row)),
    (∀ pr ∈ acc, pr.2.id = some pr.1) →
    ∀ pr ∈ buildByIdAux rows acc, pr.2.id = some pr.1
  | [], acc => fun hacc => hacc
  | r :: rest, acc => by
    intro hacc
    simp only [buildByIdAux]
    split
    · exact buildByIdAux_vals rest acc hacc
    · rename_i i hid
      split
      · apply buildByIdAux_vals rest
        intro pr hpr
        rcases List.mem_map.mp hpr with ⟨pq, hpq, rfl⟩
        by_cases hqi : pq.1 = i
        · simp [hqi, hid]
        · rw [if_neg (by simp [hqi])]
          exact hacc pq hpq
      · apply buildByIdAux_vals rest
        intro pr hpr
        rcases List.mem_append.mp hpr with hpr2 | hpr2
        · exact hacc pr hpr2
        · rcases List.mem_singleton.mp hpr2 with rfl
          exact hid

/-- A push candidate is a task whose id is absent or not remote-known; it is a
function of the task's identifier alone. -/
theorem isPushCandidate_congr (R : List ℤ) (a b : PriorityTask)
    (h : a.task_id = b.task_id) : isPushCandidate R a = isPushCandidate R b := by
  unfold isPushCandidate
  rw [h]

theorem filter_cand_length_eq (R : List ℤ) :
    ∀ (l1 l2 : List PriorityTask),
      l1.map (fun t => t.task_id) = l2.map (fun t => t.task_id) →
      (l1.filter (isPushCandidate R)).length = (l2.filter (isPushCandidate R)).length
  | [], [] => fun _ => rfl
  | [], b :: l2 => by intro h; simp at h
  | a :: l1, [] => by intro h; simp at h
  | a :: l1, b :: l2 => by
    intro h
    simp only [List.map_cons, List.cons.injEq] at h
    rw [List.filter_cons, List.filter_cons, isPushCandidate_congr R a b h.1]
    cases hb : isPushCandidate R b <;>
      simp [filter_cand_length_eq R l1 l2 h.2]

theorem isPushCandidate_nil (t : PriorityTask) : isPushCandidate [] t = true := by
  unfold isPushCandidate
  split
  · rfl
  · simp

theorem filter_cand_pulls_nil (rows : List Row) (lids : List ℤ) :
    (((buildById rows).filter (fun pr => !(lids.contains pr.1))).map
        (fun pr => PriorityTask.from_dict pr.2)).filter
      (isPushCandidate ((buildById rows).map Prod.fst)) = [] := by
  rw [List.filter_eq_nil_iff]
  intro t ht
  rcases List.mem_map.mp ht with ⟨pr, hpr, rfl⟩
  have hmem : pr ∈ buildById rows := List.mem_of_mem_filter hpr
  have hid : (PriorityTask.from_dict pr.2).task_id = some pr.1 :=
    buildByIdAux_vals rows [] (by intro pq hpq; cases hpq) pr hmem
  have hkey : pr.1 ∈ (buildById rows).map Prod.fst := List.mem_map_of_mem Prod.fst hmem
  unfold isPushCandidate
  rw [hid]
  simp [hkey]

/-- C3: sync_with_remote removes no task (the resulting collection is the old
one plus the pulled rows), its pushed count is exactly the number of local
tasks whose identifier is absent or not in the fetched snapshot's identifier
set, its pulled count is exactly the number of distinct remote ids not known
locally (so nothing is double-counted), and against an empty remote snapshot
with prefer_local every previously-local task is still present (identifier
apart) and pushed equals the number of local tasks; the one-remote-row,
one-local-task scenario yields pushed = 1 and pulled = 1. -/
theorem sync_push_pull_spec (rows : List Row) (resps : List (Option Row))
    (tasks : List PriorityTask) (file : List Row) (pl : Bool) (now : String) :
    (sync_with_remote ⟨⟨true, rows, resps⟩, tasks, file⟩ pl now).1.tasks.length
      = tasks.length
        + (sync_with_remote ⟨⟨true, rows, resps⟩, tasks, file⟩ pl now).2.pulled ∧
    (sync_with_remote ⟨⟨true, rows, resps⟩, tasks, file⟩ pl now).2.pushed
      = (tasks.filter (isPushCandidate ((buildById rows).map Prod.fst))).length ∧
    (sync_with_remote ⟨⟨true, rows, resps⟩, tasks, file⟩ pl now).2.pulled
      = ((buildById rows).filter
          (fun pr => !((tasks.filterMap (fun t => t.task_id)).contains pr.1))).length ∧
    ((sync_with_remote ⟨⟨true, ([] : List Row), resps⟩, tasks, file⟩ true now).1.tasks.map
        sansId = tasks.map sansId ∧
     (sync_with_remote ⟨⟨true, ([] : List Row), resps⟩, tasks, file⟩ true now).2
        = ⟨tasks.length, 0, 0⟩) ∧
    (sync_with_remote ⟨⟨true, [{ id := some 1, title := some "R" }],
        [some { id := some 7 }]⟩,
        [{ task_id := some 2, title := "L", due_date := none, status := "Pending",
           created_at := none, updated_at := none, priority_level := "Normal",
           notes := none }], []⟩ true now).2 = ⟨1, 1, 0⟩ := by
  obtain ⟨hT, hPush, hPull, hUpd⟩ := sync_components rows resps tasks file pl now
  have hmut := pullPhase_map_tid pl (tasks.filterMap (fun t => t.task_id))
    (buildById rows) tasks [] 0 0
  have hpulls := pullPhase_pulls pl (tasks.filterMap (fun t => t.task_id))
    (buildById rows) tasks [] 0 0
  have hpulled := pullPhase_pulled pl (tasks.filterMap (fun t => t.task_id))
    (buildById rows) tasks [] 0 0
  have hmutlen : (pullPhase pl (tasks.filterMap (fun t => t.task_id)) (buildById rows)
      (tasks, [], 0, 0)).1.length = tasks.length := by
    have := congrArg List.length hmut
    simpa [List.length_map] using this
  refine ⟨?_, ?_, ?_, ?_, ?_⟩
  · rw [hT, hPull, pushPhase_length, List.length_append, hmutlen, hpulls, hpulled]
    simp
  · rw [hPush, pushPhase_pushed, hpulls, List.nil_append, List.filter_append,
      List.length_append,
      filter_cand_length_eq ((buildById rows).map Prod.fst) _ _ hmut,
      filter_cand_pulls_nil rows (tasks.filterMap (fun t => t.task_id))]
    simp
  · rw [hPull, hpulled]
    simp
  · obtain ⟨hT0, hPush0, hPull0, hUpd0⟩ := sync_components [] resps tasks file true now
    constructor
    · rw [hT0, pushPhase_sansId]
      have h2 : (pullPhase true (tasks.filterMap (fun t => t.task_id)) (buildById [])
          (tasks, [], 0, 0)).1
            ++ (pullPhase true (tasks.filterMap (fun t => t.task_id)) (buildById [])
          (tasks, [], 0, 0)).2.1 = tasks ++ [] := rfl
      rw [h2, List.append_nil]
    · have h1 : (sync_with_remote ⟨⟨true, ([] : List Row), resps⟩, tasks, file⟩
          true now).2.pushed = tasks.length := by
        rw [hPush0, pushPhase_pushed]
        have h2 : (pullPhase true (tasks.filterMap (fun t => t.task_id)) (buildById [])
            (tasks, [], 0, 0)).1
              ++ (pullPhase true (tasks.filterMap (fun t => t.task_id)) (buildById [])
            (tasks, [], 0, 0)).2.1 = tasks ++ [] := rfl
        rw [h2, List.append_nil]
        have h3 : (buildById ([] : List Row)).map Prod.fst = [] := rfl
        rw [h3, List.filter_eq_self.mpr (fun a _ => isPushCandidate_nil a)]
      rw [← h1]
      rfl
  · rfl

/-! ## Identifier-uniqueness infrastructure (claim C4) -/

theorem assignedIds_cons (a : PriorityTask) (l : List PriorityTask) :
    assignedIds (a :: l)
      = (match a.task_id with
         | none => assignedIds l
         | some j => j :: assignedIds l) := by
  cases h : a.task_id <;> simp [assignedIds, List.filterMap_cons, h]

theorem mem_assignedIds_cons {i : ℤ} {a : PriorityTask} {l : List PriorityTask} :
    i ∈ assignedIds (a :: l) ↔ a.task_id = some i ∨ i ∈ assignedIds l := by
  rw [assignedIds_cons]
  cases h : a.task_id with
  | none => simp [h]
  | some j => simp [h, eq_comm]

theorem nodup_assignedIds_cons {a : PriorityTask} {l : List PriorityTask} :
    (assignedIds (a :: l)).Nodup ↔
      ((∀ j, a.task_id = some j → j ∉ assignedIds l) ∧ (assignedIds l).Nodup) := by
  rw [assignedIds_cons]
  cases h : a.task_id with
  | none => simp [h]
  | some j => simp [h, List.nodup_cons]

theorem assignedIds_append (l1 l2 : List PriorityTask) :
    assignedIds (l1 ++ l2) = assignedIds l1 ++ assignedIds l2 := by
  simp [assignedIds, List.filterMap_append]

theorem assigned_eq_of_map_tid_eq (l1 l2 : List PriorityTask)
    (h : l1.map (fun t => t.task_id) = l2.map (fun t => t.task_id)) :
    assignedIds l1 = assignedIds l2 := by
  have key : ∀ l : List PriorityTask,
      assignedIds l = (l.map (fun t => t.task_id)).filterMap id := by
    intro l
    rw [List.filterMap_map]
    rfl
  rw [key l1, key l2, h]

theorem respIds_cons (o : Option Row) (s : List (Option Row)) :
    respIds (o :: s)
      = (match o.bind Row.id with
         | none => respIds s
         | some j => j :: respIds s) := by
  cases h : o.bind Row.id <;> simp [respIds, List.filterMap_cons, h]

theorem respIds_tail_sub (s : List (Option Row)) (i : ℤ) (h : i ∈ respIds s.tail) :
    i ∈ respIds s := by
  cases s with
  | nil => exact h
  | cons o s2 =>
    simp only [List.tail_cons] at h
    rw [respIds_cons]
    cases ho : o.bind Row.id
    · exact h
    · exact List.mem_cons_of_mem _ h

theorem respIds_tail_nodup (s : List (Option Row)) (h : (respIds s).Nodup) :
    (respIds s.tail).Nodup := by
  cases s with
  | nil => exact h
  | cons o s2 =>
    simp only [List.tail_cons]
    rw [respIds_cons] at h
    cases ho : o.bind Row.id
    · rw [ho] at h; exact h
    · rw [ho] at h; exact (List.nodup_cons.mp h).2

theorem adoptId_tid (t : PriorityTask) (o : Option Row) :
    (adoptId t o).task_id
      = (match o.bind Row.id with
         | none => t.task_id
         | some j => some j) := by
  cases o with
  | none => rfl
  | some row =>
    show (match row.id with
          | some i => ({ t with task_id := some i } : PriorityTask)
          | none => t).task_id
        = (match row.id with
           | none => t.task_id
           | some j => some j)
    cases hr : row.id
    · rfl
    · rfl

theorem pushPhase_mem_assigned (R : List ℤ) :
    ∀ (ts : List PriorityTask) (s : List (Option Row)) (i : ℤ),
      i ∈ assignedIds (pushPhase R ts s).1 → i ∈ assignedIds ts ++ respIds s
  | [], s, i => by
    intro h
    simp [assignedIds, pushPhase] at h
  | t :: ts, s, i => by
    intro h
    simp only [pushPhase] at h
    by_cases hc : isPushCandidate R t = true
    · rw [if_pos hc] at h
      rcases mem_assignedIds_cons.mp h with h1 | h1
      · rw [adoptId_tid] at h1
        cases hb : (s.headD none).bind Row.id with
        | none =>
          rw [hb] at h1
          exact List.mem_append.mpr (Or.inl (mem_assignedIds_cons.mpr (Or.inl h1)))
        | some j =>
          rw [hb] at h1
          obtain rfl : j = i := Option.some.inj h1
          apply List.mem_append.mpr (Or.inr ?_)
          cases s with
          | nil => simp at hb
          | cons o s2 =>
            simp only [List.headD_cons] at hb
            rw [respIds_cons, hb]
            exact List.mem_cons_self _ _
      · have h2 := pushPhase_mem_assigned R ts s.tail i h1
        rcases List.mem_append.mp h2 with h3 | h3
        · exact List.mem_append.mpr (Or.inl (mem_assignedIds_cons.mpr (Or.inr h3)))
        · exact List.mem_append.mpr (Or.inr (respIds_tail_sub s i h3))
    · rw [if_neg hc] at h
      rcases mem_assignedIds_cons.mp h with h1 | h1
      · exact List.mem_append.mpr (Or.inl (mem_assignedIds_cons.mpr (Or.inl h1)))
      · have h2 := pushPhase_mem_assigned R ts s i h1
        rcases List.mem_append.mp h2 with h3 | h3
        · exact List.mem_append.mpr (Or.inl (mem_assignedIds_cons.mpr (Or.inr h3)))
        · exact List.mem_append.mpr (Or.inr h3)

theorem pushPhase_nodup (R : List ℤ) :
    ∀ (ts : List PriorityTask) (s : List (Option Row)),
      (assignedIds ts).Nodup → (respIds s).Nodup →
      (∀ i ∈ respIds s, i ∉ assignedIds ts) →
      (assignedIds (pushPhase R ts s).1).Nodup
  | [], s => by
    intro _ _ _
    simp [pushPhase, assignedIds]
  | t :: ts, s => by
    intro h1 h2 h3
    have h1t : (assignedIds ts).Nodup := (nodup_assignedIds_cons.mp h1).2
    have h1a : ∀ j, t.task_id = some j → j ∉ assignedIds ts :=
      (nodup_assignedIds_cons.mp h1).1
    have h3t : ∀ i ∈ respIds s, i ∉ assignedIds ts := by
      intro i hi hmem
      exact h3 i hi (mem_assignedIds_cons.mpr (Or.inr hmem))
    simp only [pushPhase]
    by_cases hc : isPushCandidate R t = true
    · rw [if_pos hc]
      have htail : (assignedIds (pushPhase R ts s.tail).1).Nodup :=
        pushPhase_nodup R ts s.tail h1t (respIds_tail_nodup s h2)
          (fun i hi => h3t i (respIds_tail_sub s i hi))
      apply nodup_assignedIds_cons.mpr
      refine ⟨?_, htail⟩
      intro j hj hjmem
      have hsub := pushPhase_mem_assigned R ts s.tail j hjmem
      rw [adoptId_tid] at hj
      cases hb : (s.headD none).bind Row.id with
      | none =>
        rw [hb] at hj
        rcases List.mem_append.mp hsub with hx | hx
        · exact h1a j hj hx
        · exact h3 j (respIds_tail_sub s j hx) (mem_assignedIds_cons.mpr (Or.inl hj))
      | some k =>
        rw [hb] at hj
        obtain rfl : k = j := Option.some.inj hj
        cases s with
        | nil => simp at hb
        | cons o s2 =>
          simp only [List.headD_cons] at hb
          have hmemk : k ∈ respIds (o :: s2) := by
            rw [respIds_cons, hb]
            exact List.mem_cons_self _ _
          have hknot : k ∉ respIds s2 := by
            have h2b := h2
            rw [respIds_cons, hb] at h2b
            exact (List.nodup_cons.mp h2b).1
          rcases List.mem_append.mp hsub with hx | hx
          · exact h3 k hmemk (mem_assignedIds_cons.mpr (Or.inr hx))
          · exact hknot (by simpa using hx)
    · rw [if_neg hc]
      have htail : (assignedIds (pushPhase R ts s).1).Nodup :=
        pushPhase_nodup R ts s h1t h2 h3t
      apply nodup_assignedIds_cons.mpr
      refine ⟨?_, htail⟩
      intro j hj hjmem
      have hsub := pushPhase_mem_assigned R ts s j hjmem
      rcases List.mem_append.mp hsub with hx | hx
      · exact h1a j hj hx
      · exact h3 j hx (mem_assignedIds_cons.mpr (Or.inl hj))

theorem foldl_max_bounds : ∀ (xs : List ℤ) (x : ℤ),
    x ≤ xs.foldl max x ∧ ∀ a ∈ xs, a ≤ xs.foldl max x
  | [], x => ⟨le_refl x, by intro a ha; cases ha⟩
  | y :: ys, x => by
    have ih := foldl_max_bounds ys (max x y)
    constructor
    · exact le_trans (le_max_left x y) ih.1
    · intro a ha
      rcases List.mem_cons.mp ha with rfl | ha2
      · exact le_trans (le_max_right x a) ih.1
      · exact ih.2 a ha2

theorem buildByIdAux_keys_nodup : ∀ (rows : List Row) (acc : List (ℤ × Row)),
    (acc.map Prod.fst).Nodup → ((buildByIdAux rows acc).map Prod.fst).Nodup
  | [], _ => fun h => h
  | r :: rest, acc => by
    intro h
    simp only [buildByIdAux]
    split
    · exact buildByIdAux_keys_nodup rest acc h
    · rename_i i hid
      split
      · apply buildByIdAux_keys_nodup rest
        rw [keys_map_replace]
        exact h
      · rename_i hany
        apply buildByIdAux_keys_nodup rest
        rw [List.map_append]
        refine List.Nodup.append h (List.nodup_singleton i) ?_
        intro a ha hai
        have hai2 : a = i := by simpa using hai
        subst hai2
        rcases List.mem_map.mp ha with ⟨pq, hpq, hfst⟩
        apply hany
        apply List.any_eq_true.mpr
        exact ⟨pq, hpq, by simp [hfst]⟩

theorem buildByIdAux_keys_sub : ∀ (rows : List Row) (acc : List (ℤ × Row))
    (pr : ℤ × Row), pr ∈ buildByIdAux rows acc →
    pr.1 ∈ acc.map Prod.fst ++ rows.filterMap Row.id
  | [], acc, pr => by
    intro h
    exact List.mem_append.mpr (Or.inl (List.mem_map_of_mem Prod.fst h))
  | r :: rest, acc, pr => by
    intro h
    simp only [buildByIdAux] at h
    split at h
    · rename_i hid
      have h2 := buildByIdAux_keys_sub rest acc pr h
      rw [List.filterMap_cons, hid]
      exact h2
    · rename_i i hid
      split at h
      · have h2 := buildByIdAux_keys_sub rest _ pr h
        rw [keys_map_replace] at h2
        rw [List.filterMap_cons, hid]
        rcases List.mem_append.mp h2 with hx | hx
        · exact List.mem_append.mpr (Or.inl hx)
        · exact List.mem_append.mpr (Or.inr (List.mem_cons_of_mem _ hx))
      · have h2 := buildByIdAux_keys_sub rest _ pr h
        rw [List.map_append] at h2
        rw [List.filterMap_cons, hid]
        rcases List.mem_append.mp h2 with hx | hx
        · rcases List.mem_append.mp hx with hy | hy
          · exact List.mem_append.mpr (Or.inl hy)
          · have hyi : pr.1 = i := by simpa using hy
            exact List.mem_append.mpr (Or.inr (by rw [hyi]; exact List.mem_cons_self _ _))
        · exact List.mem_append.mpr (Or.inr (List.mem_cons_of_mem _ hx))

theorem assigned_pull_list : ∀ (prs : List (ℤ × Row)),
    (∀ pr ∈ prs, pr.2.id = some pr.1) →
    assignedIds (prs.map (fun pr => PriorityTask.from_dict pr.2)) = prs.map Prod.fst
  | [] => fun _ => rfl
  | pr :: rest => by
    intro h
    simp only [List.map_cons]
    rw [assignedIds_cons]
    have hid : (PriorityTask.from_dict pr.2).task_id = some pr.1 :=
      h pr (List.mem_cons_self _ _)
    rw [hid]
    exact congrArg (fun l => pr.1 :: l)
      (assigned_pull_list rest (fun q hq => h q (List.mem_cons_of_mem _ hq)))

theorem updFirst_map_tid {α : Type} (p : α → Bool) (f : α → α) (tid : α → Option ℤ)
    (hf : ∀ t, tid (f t) = tid t) : ∀ (l l1 : List α) (x : α),
    updFirst p f l = some (l1, x) → l1.map tid = l.map tid
  | [], l1, x => by
    intro h
    simp [updFirst] at h
  | y :: ys, l1, x => by
    intro h
    simp only [updFirst] at h
    by_cases hp : p y = true
    · rw [if_pos hp] at h
      have h2 := Option.some.inj h
      rw [Prod.mk.injEq] at h2
      rw [← h2.1]
      simp [hf y]
    · rw [if_neg hp] at h
      cases hrec : updFirst p f ys with
      | none => rw [hrec] at h; cases h
      | some res2 =>
        rw [hrec] at h
        have h2 := Option.some.inj h
        rw [Prod.mk.injEq] at h2
        rw [← h2.1]
        simp only [List.map_cons]
        rw [updFirst_map_tid p f tid hf ys res2.1 res2.2 hrec]

theorem nodup_assigned_append_one (tasks : List PriorityTask) (t : PriorityTask)
    (h : (assignedIds tasks).Nodup)
    (hf : ∀ j, t.task_id = some j → j ∉ assignedIds tasks) :
    (assignedIds (tasks ++ [t])).Nodup := by
  rw [assignedIds_append]
  cases hid : t.task_id with
  | none =>
    have h1 : assignedIds [t] = [] := by simp [assignedIds, List.filterMap_cons, hid]
    rw [h1]
    simpa using h
  | some j =>
    have h1 : assignedIds [t] = [j] := by simp [assignedIds, List.filterMap_cons, hid]
    rw [h1]
    refine List.Nodup.append h (List.nodup_singleton j) ?_
    intro a ha haj
    have : a = j := by simpa using haj
    subst this
    exact hf a hid ha

theorem add_task_appends (st : TaskManager) (now title : String) (due : Option String)
    (priority status : String) :
    (add_task st now title due priority status).1.tasks
        = st.tasks ++ [(add_task st now title due priority status).2] ∧
    (add_task st now title due priority status).1.jsonFile
        = (add_task st now title due priority status).1.tasks.map PriorityTask.to_dict := by
  unfold add_task
  cases hsup : st.db.supabase
  · simp [save_json]
  · cases hresp : st.db.insertResponses.headD none <;> simp [hresp, save_json]

theorem add_task_local_tid (st : TaskManager) (now title : String) (due : Option String)
    (priority status : String)
    (h : st.db.supabase = false ∨ st.db.insertResponses.headD none = none) :
    ((add_task st now title due priority status).2).task_id
      = some (_next_local_id st.tasks) := by
  unfold add_task
  rcases h with h | h
  · simp [h]
  · cases hsup : st.db.supabase
    · simp [hsup]
    · simp only [hsup, if_true]
      rw [h]

theorem add_task_remote_tid (st : TaskManager) (now title : String) (due : Option String)
    (priority status : String) (row : Row) (h : st.db.supabase = true)
    (hr : st.db.insertResponses.headD none = some row) :
    ((add_task st now title due priority status).2).task_id = row.id := by
  unfold add_task
  simp only [h, if_true, hr]
  split <;> rfl

theorem next_local_id_fresh (tasks : List PriorityTask) :
    _next_local_id tasks ∉ assignedIds tasks := by
  intro h
  rcases List.mem_filterMap.mp h with ⟨t, ht, hid⟩
  have hmem : _next_local_id tasks ∈ tasks.map (fun t => t.task_id.getD 0) :=
    List.mem_map.mpr ⟨t, ht, by rw [hid]; rfl⟩
  have hle : _next_local_id tasks ≤ (tasks.map (fun t => t.task_id.getD 0)).max?.getD 0 := by
    rcases hl : tasks.map (fun t => t.task_id.getD 0) with _ | ⟨x, xs⟩
    · rw [hl] at hmem; cases hmem
    · rw [hl] at hmem
      rw [hl, List.max?_cons', Option.getD_some]
      rcases List.mem_cons.mp hmem with heq | h2
      · rw [heq]; exact (foldl_max_bounds xs _).1
      · exact (foldl_max_bounds xs x).2 _ h2
  unfold _next_local_id at hle
  omega

def dupIdTask : PriorityTask :=
  { task_id := some 1, title := "A", due_date := none, status := "Pending",
    created_at := none, updated_at := none, priority_level := "Normal", notes := none }

def dupIdState : TaskManager :=
  { db := { supabase := true, remoteRows := [], insertResponses := [some { id := some 1 }] },
    tasks := [dupIdTask], jsonFile := [] }

/-- C4 counterexample: when the remote insert response carries an id that is
already assigned locally, add_task adopts it verbatim and the collection ends
up with two tasks of id 1: uniqueness of assigned ids is not preserved as the
claim states. -/
theorem add_task_adopted_id_collision :
    (assignedIds dupIdState.tasks).Nodup ∧
    ¬ (assignedIds (add_task dupIdState "now" "B" none "Normal" "Pending").1.tasks).Nodup :=
  ⟨by decide, by decide⟩

/-- C4 amended: every Task Manager operation preserves pairwise-distinct
assigned task_id values, provided each remote-issued identifier adopted along
the way is fresh: for add_task the insert response's id must not already be
assigned, and for sync_with_remote the response stream's ids must be pairwise
distinct and occur neither among the local assigned ids nor among the remote
snapshot's row ids.  The local paths (local id assignment, update, delete,
snooze) need no proviso. -/
theorem task_id_uniqueness_spec :
    (∀ (rows : List Row) (resps : List (Option Row)) (tasks : List PriorityTask)
        (file : List Row) (now title : String) (due : Option String)
        (priority status : String),
        (assignedIds tasks).Nodup →
        (assignedIds (add_task ⟨⟨false, rows, resps⟩, tasks, file⟩
            now title due priority status).1.tasks).Nodup) ∧
    (∀ (rows : List Row) (resp : Option Row) (resps : List (Option Row))
        (tasks : List PriorityTask) (file : List Row)
        (now title : String) (due : Option String) (priority status : String),
        (assignedIds tasks).Nodup →
        (∀ row, resp = some row → ∀ i, row.id = some i → i ∉ assignedIds tasks) →
        (assignedIds (add_task ⟨⟨true, rows, resp :: resps⟩, tasks, file⟩
            now title due priority status).1.tasks).Nodup) ∧
    (∀ (st : TaskManager) (now : String) (task_id : ℤ) (f : UpdateFields),
        (assignedIds st.tasks).Nodup →
        (assignedIds (update_task st now task_id f).1.tasks).Nodup) ∧
    (∀ (st : TaskManager) (task_id : ℤ),
        (assignedIds st.tasks).Nodup →
        (assignedIds (delete_task st task_id).1.tasks).Nodup) ∧
    (∀ (st : TaskManager) (now : String) (task_id days : ℤ),
        (assignedIds st.tasks).Nodup →
        (assignedIds (snooze_task st now task_id days).1.tasks).Nodup) ∧
    (∀ (rows : List Row) (resps : List (Option Row)) (tasks : List PriorityTask)
        (file : List Row) (prefer_local : Bool) (now : String),
        (assignedIds tasks).Nodup →
        (respIds resps).Nodup →
        (∀ i ∈ respIds resps, i ∉ assignedIds tasks ∧ i ∉ rows.filterMap Row.id) →
        (assignedIds (sync_with_remote ⟨⟨true, rows, resps⟩, tasks, file⟩
            prefer_local now).1.tasks).Nodup) := by
  refine ⟨?_, ?_, ?_, ?_, ?_, ?_⟩
  · intro rows resps tasks file now title due priority status h
    rw [(add_task_appends ⟨⟨false, rows, resps⟩, tasks, file⟩ now title due
      priority status).1]
    apply nodup_assigned_append_one _ _ h
    intro j hj
    rw [add_task_local_tid _ _ _ _ _ _ (Or.inl rfl)] at hj
    have hje := Option.some.inj hj
    rw [← hje]
    exact next_local_id_fresh tasks
  · intro rows resp resps tasks file now title due priority status h hfresh
    rw [(add_task_appends ⟨⟨true, rows, resp :: resps⟩, tasks, file⟩ now title due
      priority status).1]
    apply nodup_assigned_append_one _ _ h
    intro j hj
    cases resp with
    | none =>
      rw [add_task_local_tid ⟨⟨true, rows, none :: resps⟩, tasks, file⟩
        now title due priority status (Or.inr rfl)] at hj
      have hje := Option.some.inj hj
      rw [← hje]
      exact next_local_id_fresh tasks
    | some row =>
      rw [add_task_remote_tid ⟨⟨true, rows, some row :: resps⟩, tasks, file⟩
        now title due priority status row rfl rfl] at hj
      exact hfresh row rfl j hj
  · intro st now task_id f h
    unfold update_task
    cases hu : updFirst (fun t => t.task_id == some task_id) (applyFields now f)
        st.tasks with
    | none => exact h
    | some res =>
      obtain ⟨l1, x⟩ := res
      have hmap := updFirst_map_tid (fun t => t.task_id == some task_id)
        (applyFields now f) (fun t => t.task_id) (fun t => rfl) st.tasks l1 x hu
      show (assignedIds l1).Nodup
      rw [assigned_eq_of_map_tid_eq l1 st.tasks hmap]
      exact h
  · intro st task_id h
    unfold delete_task
    by_cases hc : st.tasks.any (fun t => t.task_id == some task_id) = true
    · rw [if_pos hc]
      exact List.Nodup.sublist
        (List.Sublist.filterMap _ (List.filter_sublist st.tasks)) h
    · rw [if_neg hc]
      exact h
  · intro st now task_id days h
    unfold snooze_task
    split
    · exact h
    · split
      · exact h
      · split
        · exact h
        · split
          · exact h
          · split
            · exact h
            · rename_i c hparse hcond xscr res hu
              obtain ⟨l1, x⟩ := res
              have hmap := updFirst_map_tid (fun t => t.task_id == some task_id)
                (fun t => { t with
                  due_date := some (isoOfOrdinal
                    ((toOrdinal c.1 c.2.1 c.2.2 : ℤ) + days).toNat),
                  updated_at := some now })
                (fun t => t.task_id) (fun t => rfl) st.tasks l1 x hu
              show (assignedIds l1).Nodup
              rw [assigned_eq_of_map_tid_eq l1 st.tasks hmap]
              exact h
  · intro rows resps tasks file prefer_local now h1 h2 h3
    rw [(sync_components rows resps tasks file prefer_local now).1]
    have hpulls := pullPhase_pulls prefer_local (tasks.filterMap (fun t => t.task_id))
      (buildById rows) tasks [] 0 0
    have hmut := pullPhase_map_tid prefer_local (tasks.filterMap (fun t => t.task_id))
      (buildById rows) tasks [] 0 0
    have hvals : ∀ pr ∈ (buildById rows).filter
        (fun pr => !((tasks.filterMap (fun t => t.task_id)).contains pr.1)),
        pr.2.id = some pr.1 := by
      intro pr hpr
      exact buildByIdAux_vals rows [] (by intro q hq; cases hq) pr
        (List.mem_of_mem_filter hpr)
    have hassigned1 : assignedIds
        ((pullPhase prefer_local (tasks.filterMap (fun t => t.task_id)) (buildById rows)
            (tasks, [], 0, 0)).1
          ++ (pullPhase prefer_local (tasks.filterMap (fun t => t.task_id))
            (buildById rows) (tasks, [], 0, 0)).2.1)
        = assignedIds tasks
          ++ ((buildById rows).filter
              (fun pr => !((tasks.filterMap (fun t => t.task_id)).contains pr.1))).map
            Prod.fst := by
      rw [assignedIds_append, hpulls, List.nil_append,
        assigned_eq_of_map_tid_eq _ tasks hmut, assigned_pull_list _ hvals]
    have hkeysnodup : (((buildById rows).filter
        (fun pr => !((tasks.filterMap (fun t => t.task_id)).contains pr.1))).map
          Prod.fst).Nodup := by
      have hb := buildByIdAux_keys_nodup rows [] List.nodup_nil
      exact List.Nodup.sublist
        (List.Sublist.map _ (List.filter_sublist (buildById rows))) hb
    have hdisj : ∀ a ∈ assignedIds tasks,
        a ∉ ((buildById rows).filter
          (fun pr => !((tasks.filterMap (fun t => t.task_id)).contains pr.1))).map
            Prod.fst := by
      intro a ha hmem
      rcases List.mem_map.mp hmem with ⟨pr, hpr, rfl⟩
      have hcond := List.of_mem_filter hpr
      simp only [Bool.not_eq_true'] at hcond
      rw [List.contains_eq_any_beq, List.any_eq_false] at hcond
      exact hcond pr.1 ha (by simp)
    have hnodup1 : (assignedIds
        ((pullPhase prefer_local (tasks.filterMap (fun t => t.task_id)) (buildById rows)
            (tasks, [], 0, 0)).1
          ++ (pullPhase prefer_local (tasks.filterMap (fun t => t.task_id))
            (buildById rows) (tasks, [], 0, 0)).2.1)).Nodup := by
      rw [hassigned1]
      exact List.Nodup.append h1 hkeysnodup hdisj
    apply pushPhase_nodup _ _ _ hnodup1 h2
    intro i hi
    rw [hassigned1]
    intro hmem
    rcases List.mem_append.mp hmem with hx | hx
    · exact (h3 i hi).1 hx
    · rcases List.mem_map.mp hx with ⟨pr, hpr, rfl⟩
      apply (h3 pr.1 hi).2
      have hkey := buildByIdAux_keys_sub rows [] pr (List.mem_of_mem_filter hpr)
      simpa using hkey

/-- Witness for the amended C4 theorem: each operation applied at a concrete
state with distinct assigned ids (and fresh remote-issued ids) yields a
collection with distinct assigned ids. -/
theorem task_id_uniqueness_spec_witness :
    (assignedIds (add_task ⟨⟨false, [], []⟩, [plainTask], []⟩
        "now" "B" none "Low" "Pending").1.tasks).Nodup ∧
    (assignedIds (add_task ⟨⟨true, [], [some { id := some 9 }]⟩, [plainTask], []⟩
        "now" "B" none "Low" "Pending").1.tasks).Nodup ∧
    (assignedIds (update_task ⟨⟨false, [], []⟩, [plainTask], []⟩
        "now" 1 { status := some "Completed" }).1.tasks).Nodup ∧
    (assignedIds (delete_task ⟨⟨false, [], []⟩, [plainTask], []⟩ 1).1.tasks).Nodup ∧
    (assignedIds (snooze_task ⟨⟨false, [], []⟩, [writeReportTask], []⟩
        "now" 1 2).1.tasks).Nodup ∧
    (assignedIds (sync_with_remote
        ⟨⟨true, [{ id := some 3 }], [some { id := some 9 }]⟩, [plainTask], []⟩
        false "now").1.tasks).Nodup :=
  ⟨task_id_uniqueness_spec.1 [] [] [plainTask] [] "now" "B" none "Low" "Pending"
      (by decide),
   task_id_uniqueness_spec.2.1 [] (some { id := some 9 }) [] [plainTask] []
      "now" "B" none "Low" "Pending" (by decide)
      (by
        intro row hrow i hi
        cases Option.some.inj hrow
        have h9 := Option.some.inj hi
        rw [← h9]
        decide),
   task_id_uniqueness_spec.2.2.1 ⟨⟨false, [], []⟩, [plainTask], []⟩ "now" 1
      { status := some "Completed" } (by decide),
   task_id_uniqueness_spec.2.2.2.1 ⟨⟨false, [], []⟩, [plainTask], []⟩ 1 (by decide),
   task_id_uniqueness_spec.2.2.2.2.1 ⟨⟨false, [], []⟩, [writeReportTask], []⟩
      "now" 1 2 (by decide),
   task_id_uniqueness_spec.2.2.2.2.2 [{ id := some 3 }] [some { id := some 9 }]
      [plainTask] [] false "now" (by decide) (by decide) (by decide)⟩

/-- C9: get_sorted_by_urgency returns the full in-memory collection (a
permutation of it), sorted in descending order of compute_urgency_score, and
the sort is stable: for every score value, the subsequence of tasks with that
urgency score is exactly the corresponding subsequence of the input
collection, so equal-score tasks keep their relative order. -/
theorem get_sorted_by_urgency_spec (st : TaskManager) (nd : ℕ × ℕ × ℕ) :
    List.Perm (get_sorted_by_urgency st nd) st.tasks ∧
    List.Pairwise (fun a b => compute_urgency_score b nd ≤ compute_urgency_score a nd)
      (get_sorted_by_urgency st nd) ∧
    ∀ v : ℚ, (get_sorted_by_urgency st nd).filter
          (fun t => decide (compute_urgency_score t nd = v))
        = st.tasks.filter (fun t => decide (compute_urgency_score t nd = v)) := by
  refine ⟨?_, ?_, ?_⟩
  · have h := sortDesc_perm_aux (fun t => compute_urgency_score t nd) st.tasks []
    simpa [get_sorted_by_urgency, sortDesc] using h
  · have h := sortDesc_pairwise_aux (fun t => compute_urgency_score t nd) st.tasks []
      List.Pairwise.nil
    simpa [get_sorted_by_urgency, sortDesc] using h
  · intro v
    have h := sortDesc_filter_aux (fun t => compute_urgency_score t nd) v st.tasks []
      List.Pairwise.nil
    simpa [get_sorted_by_urgency, sortDesc] using h

end TaskApp
